import Mathlib

/-!
Verification of the SDD++ node-handle layer (src/lib++/src/sdd.cpp and
src/lib++/include/sdd++/sdd++.hpp).

The layer wraps an external SDD engine (libsdd).  The engine represents
Boolean functions canonically: two engine nodes are equal exactly when they
denote the same Boolean function over the manager's variables.  We therefore
embed an engine node over a manager with `V` variables as its denotation, a
function `(Fin V → Bool) → Bool`; equality of embedded nodes is function
equality, which is decidable since the domain is a fintype.  Engine
primitives (sdd_condition, sdd_negate, sdd_exists, sdd_forall,
sdd_node_is_true, sdd_node_is_false, sdd_variables, ...) are embedded by
their documented Boolean-function semantics; the wrapper algorithms
(condition on a literal list, value, model, rename, manager::literal) are
translated statement by statement from sdd.cpp.

Variable `i : Fin V` plays the role of the 1-based source variable `i+1`.
-/

namespace SddSpec

/-- An assignment of the manager's `V` Boolean variables. -/
abbrev Assig (V : Nat) := Fin V → Bool

/-- The denotation of an engine node over `V` variables.  The engine is
canonical, so node equality in the C++ layer (pointer equality of engine
nodes) is equality of denotations. -/
abbrev Node (V : Nat) := Assig V → Bool

/-- A well-formed literal over `V` variables: a variable paired with a
polarity (`pol = true` is the positive literal).  This is `class literal`
restricted to the in-range values used by the node algebra. -/
structure Lit (V : Nat) where
  var : Fin V
  pol : Bool
deriving DecidableEq, Repr

/-- `literal::operator!`: negation flips the polarity and keeps the
variable. -/
def Lit.neg {V : Nat} (l : Lit V) : Lit V := ⟨l.var, !l.pol⟩

/-- Engine `sdd_node_is_true`: the node is the constant true function. -/
def isValid {V : Nat} (n : Node V) : Bool := decide (∀ a, n a = true)

/-- Engine `sdd_node_is_false` (`node::is_unsat`): constant false. -/
def isUnsat {V : Nat} (n : Node V) : Bool := decide (∀ a, n a = false)

/-- `node::is_sat`, defined in sdd.cpp as `!is_unsat()`. -/
def isSat {V : Nat} (n : Node V) : Bool := !isUnsat n

/-- Engine `sdd_negate` (`node::operator!`). -/
def negateN {V : Nat} (n : Node V) : Node V := fun a => !(n a)

/-- Engine `sdd_condition` (`node::condition(literal)`): restrict the
literal's variable to the literal's polarity. -/
def condition {V : Nat} (n : Node V) (l : Lit V) : Node V :=
  fun a => n (Function.update a l.var l.pol)

/-- `node::condition(std::vector<literal> const&)` translated from
sdd.cpp lines 218-226: fold conditioning left to right, breaking out of
the loop as soon as the intermediate node is valid or unsat. -/
def conditionSeq {V : Nat} (n : Node V) : List (Lit V) → Node V
  | [] => n
  | l :: ls =>
    let m := condition n l
    if isValid m || isUnsat m then m else conditionSeq m ls

/-- The same fold with no short-circuit: conditioning on every literal of
the list, left to right. -/
def conditionAll {V : Nat} (n : Node V) (ls : List (Lit V)) : Node V :=
  ls.foldl condition n

/-- `node::value(literal)` translated from sdd.cpp lines 228-234. -/
def value {V : Nat} (n : Node V) (l : Lit V) : Option Bool :=
  if isUnsat (condition n l) then some false
  else if isUnsat (condition n l.neg) then some true
  else none

/-- Engine `sdd_exists` on a single variable (`exists(variable, node)`). -/
def existsVar {V : Nat} (v : Fin V) (n : Node V) : Node V :=
  fun a => n (Function.update a v true) || n (Function.update a v false)

/-- Engine `sdd_forall` on a single variable, called by
`forall(variable, node)` at sdd.cpp lines 181-186. -/
def forallVar {V : Nat} (v : Fin V) (n : Node V) : Node V :=
  fun a => n (Function.update a v true) && n (Function.update a v false)

/-- Engine `sdd_exists_multiple` (`exists(vector<variable>, node)`): one
pass eliminating every variable of `vars` existentially. -/
def existsVars {V : Nat} (vars : List (Fin V)) (n : Node V) : Node V :=
  fun a => decide (∃ g : Assig V, (∀ i, i ∉ vars → g i = a i) ∧ n g = true)

/-- `forall(vector<variable>, node)` translated from sdd.cpp lines
177-179: literally `!exists(vars, !n)`. -/
def forallVars {V : Nat} (vars : List (Fin V)) (n : Node V) : Node V :=
  negateN (existsVars vars (negateN n))

/-- Variable `i` is essential for `n`: some assignment distinguishes
`i := true` from `i := false`.  The engine's per-variable support bitmap
(`sdd_variables`) reports exactly the essential variables of the canonical
representation. -/
def essential {V : Nat} (n : Node V) (i : Fin V) : Bool :=
  decide (∃ a, n (Function.update a i true) ≠ n (Function.update a i false))

/-- `node::variables()` (sdd.cpp lines 117-126): the support variables in
ascending order, read off the engine's bitmap for `1..var_count`. -/
def varsList {V : Nat} (n : Node V) : List (Fin V) :=
  (List.finRange V).filter (fun i => essential n i)

/-- The loop of `node::model()` (sdd.cpp lines 282-300).  `vars` is the
suffix of the support list not yet indexed by `i`; `acc` is the literal
vector built so far.  At each iteration the loop first returns on an unsat
or valid residual, then conditions on the positive literal of the next
support variable, falling back to the negative literal if the positive
conditioning is unsat.  In the source an exhausted `vars` with a
non-constant residual would be `vars.at(i)` raising `std::out_of_range`;
that (unreachable) case is embedded as `none`. -/
def modelLoop {V : Nat} (n : Node V) (vars : List (Fin V))
    (acc : List (Lit V)) : Option (List (Lit V)) :=
  if isUnsat n then none
  else if isValid n then some acc
  else
    match vars with
    | [] => none
    | v :: rest =>
      let choice := condition n ⟨v, true⟩
      if isUnsat choice then
        modelLoop (condition n ⟨v, false⟩) rest (acc ++ [⟨v, false⟩])
      else
        modelLoop choice rest (acc ++ [⟨v, true⟩])

/-- `node::model()` (sdd.cpp lines 274-301): run the loop over the support
list of the node itself, starting from an empty accumulator. -/
def model {V : Nat} (n : Node V) : Option (List (Lit V)) :=
  modelLoop n (varsList n) []

/-- The residual node observed at each head of the `model` loop, in order,
for tracing how the residual's support evolves across iterations. -/
def residualTrace {V : Nat} (n : Node V) (vars : List (Fin V)) :
    List (Node V) :=
  if isUnsat n then [n]
  else if isValid n then [n]
  else
    match vars with
    | [] => [n]
    | v :: rest =>
      let choice := condition n ⟨v, true⟩
      if isUnsat choice then
        n :: residualTrace (condition n ⟨v, false⟩) rest
      else
        n :: residualTrace choice rest

/-- The error thrown by `manager::literal` (sdd.cpp lines 90-95):
`std::invalid_argument("literal too large")`, a distinct out-of-range
signal. -/
inductive LiteralError where
  | outOfRange
deriving DecidableEq, Repr

/-- The failure of the defensive `assert` in `node::rename` (sdd.cpp line
244): a fatal, unrecoverable abort, distinct from any recoverable error. -/
inductive RenameError where
  | assertionFailure
deriving DecidableEq, Repr

instance {ε α : Type} [DecidableEq ε] [DecidableEq α] :
    DecidableEq (Except ε α) := fun x y =>
  match x, y with
  | Except.ok a, Except.ok b =>
    if h : a = b then Decidable.isTrue (by rw [h])
    else Decidable.isFalse (fun hc => h (Except.ok.inj hc))
  | Except.error e, Except.error f =>
    if h : e = f then Decidable.isTrue (by rw [h])
    else Decidable.isFalse (fun hc => h (Except.error.inj hc))
  | Except.ok _, Except.error _ => Decidable.isFalse (fun hc => by cases hc)
  | Except.error _, Except.ok _ => Decidable.isFalse (fun hc => by cases hc)

/-- `literal::variable()` from sdd++.hpp lines 119-121, as computed by the
code: `_lit > 0 ? unsigned(_lit) : unsigned(-_lit)`.  The stored `long`
`_lit` is modelled as an unbounded `Int`; the C++ conversion of the
(two's-complement) `long` to the 32-bit `unsigned` is value modulo `2^32`,
which for every representable `long` (including `LONG_MIN`, whose negation
wraps to itself) equals `|_lit| % 2^32`. -/
def litVarCode (l : Int) : Nat := l.natAbs % 2 ^ 32

/-- `literal::operator!` from sdd++.hpp lines 111-113: `literal{-_lit}`,
with the `long` negation performed in two's-complement 64-bit arithmetic
(wrapping at `LONG_MIN`). -/
def negLong (x : Int) : Int := (-x + 2 ^ 63) % 2 ^ 64 - 2 ^ 63

/-- The engine's atomic node `sdd_manager_literal(lit)` for a raw signed
literal `l`: the function asserting variable `|l|` with the sign's
polarity when `|l|` is a variable of the manager, and an arbitrary
(constant false) denotation outside the engine's documented domain. -/
def litNode (V : Nat) (l : Int) : Node V :=
  fun a =>
    if h : 0 < l.natAbs ∧ l.natAbs ≤ V then
      if 0 < l then a ⟨l.natAbs - 1, by omega⟩ else !(a ⟨l.natAbs - 1, by omega⟩)
    else false

/-- `manager::literal` translated from sdd.cpp lines 90-95: read the
literal's variable via `literal::variable()`, throw the out-of-range error
if it exceeds `var_count()`, otherwise hand the raw literal to
`sdd_manager_literal`. -/
def managerLiteral (V : Nat) (l : Int) : Except LiteralError (Node V) :=
  if litVarCode l > V then Except.error LiteralError.outOfRange
  else Except.ok (litNode V l)

/-- The dense permutation array built by `node::rename` (sdd.cpp lines
238-242): length `var_count() + 1`, index 0 unused (the zero left by the
value-initialising `make_unique<SddLiteral[]>`), and entry `i` for
`1 <= i <= var_count()` holding `SddLiteral(literal(renaming(i)))`, the
nonnegative integer of the renamed variable. -/
def buildRenameMap (V : Nat) (f : Nat → Nat) : List Int :=
  (List.range (V + 1)).map (fun i => if i = 0 then 0 else Int.ofNat (f i))

/-- Engine `sdd_rename_variables`: the value of old variable `i` is read
from the new variable the map sends it to (entries outside `[1, V]` have
no documented meaning and default to false). -/
def renamePrim {V : Nat} (m : List Int) (n : Node V) : Node V :=
  fun a => n (fun i =>
    let j := ((m.get? (i.val + 1)).getD 0).toNat
    if h : 0 < j ∧ j ≤ V then a ⟨j - 1, by omega⟩ else false)

/-- `node::rename(std::function<variable(variable)>)` translated from
sdd.cpp lines 236-250.  The callback may re-enter the manager and change
`var_count()` while the map is built; `countAfter` is the value
`manager()->var_count()` observed by the `assert` after the loop.  The
assert fires (fatal abort, embedded as the `RenameError` outcome) exactly
when that observation differs from the count `V` read at entry; otherwise
the engine's rename primitive is invoked exactly once, on the dense map. -/
def renameNode (V : Nat) (f : Nat → Nat) (countAfter : Nat) (n : Node V) :
    Except RenameError (Node V) :=
  let m := buildRenameMap V f
  if countAfter = V then Except.ok (renamePrim m n)
  else Except.error RenameError.assertionFailure

/-- The node `x1 ∨ x2` over a 2-variable manager. -/
def orTwo : Node 2 := fun a => a 0 || a 1

/-- The node `x1 ∧ x2` over a 2-variable manager. -/
def andTwo : Node 2 := fun a => a 0 && a 1

/-- The atomic node for variable 1 over a 2-variable manager
(`manager.literal(literal(1))` of the spec's `value` scenario). -/
def atomOne : Node 2 := fun a => a 0

/-- The node `(x1 ∨ x2) ∧ x3` over a 3-variable manager. -/
def orAndThree : Node 3 := fun a => (a 0 || a 1) && a 2

/-- The constant-false node over a 1-variable manager. -/
def botOne : Node 1 := fun _ => false

/-! ### Helper lemmas -/

lemma isValid_iff {V : Nat} (n : Node V) :
    isValid n = true ↔ ∀ a, n a = true := by
  simp [isValid]

lemma isUnsat_iff {V : Nat} (n : Node V) :
    isUnsat n = true ↔ ∀ a, n a = false := by
  simp [isUnsat]

/-- Conditioning a valid (constant true) node is a no-op. -/
lemma condition_of_isValid {V : Nat} (m : Node V) (h : isValid m = true)
    (l : Lit V) : condition m l = m := by
  rw [isValid_iff] at h
  funext a
  simp [condition, h]

/-- Conditioning an unsat (constant false) node is a no-op. -/
lemma condition_of_isUnsat {V : Nat} (m : Node V) (h : isUnsat m = true)
    (l : Lit V) : condition m l = m := by
  rw [isUnsat_iff] at h
  funext a
  simp [condition, h]

/-- Folding conditioning over a constant node leaves it unchanged. -/
lemma conditionAll_of_const {V : Nat} (m : Node V)
    (h : isValid m = true ∨ isUnsat m = true) :
    ∀ ls : List (Lit V), conditionAll m ls = m := by
  intro ls
  induction ls generalizing m with
  | nil => rfl
  | cons l ls ih =>
    have hstep : condition m l = m := by
      rcases h with h | h
      · exact condition_of_isValid m h l
      · exact condition_of_isUnsat m h l
    calc conditionAll m (l :: ls) = conditionAll (condition m l) ls := rfl
      _ = conditionAll m ls := by rw [hstep]
      _ = m := ih m h

/-- The literal's own variable is never essential after conditioning on
that literal. -/
lemma essential_condition_self {V : Nat} (n : Node V) (l : Lit V) :
    essential (condition n l) l.var = false := by
  rw [essential, decide_eq_false_iff_not]
  push_neg
  intro a
  simp [condition, Function.update_idem]

/-- Conditioning cannot create essential variables. -/
lemma essential_condition_mono {V : Nat} (n : Node V) (l : Lit V)
    (i : Fin V) (hi : i ≠ l.var)
    (h : essential (condition n l) i = true) : essential n i = true := by
  rw [essential, decide_eq_true_eq] at h ⊢
  rcases h with ⟨a, ha⟩
  refine ⟨Function.update a l.var l.pol, ?_⟩
  simpa [condition, Function.update_comm hi] using ha

/-- If conditioning a node on both polarities of a variable is unsat, the
node itself is unsat. -/
lemma isUnsat_of_both_conditions {V : Nat} (n : Node V) (v : Fin V)
    (h1 : isUnsat (condition n ⟨v, true⟩) = true)
    (h2 : isUnsat (condition n ⟨v, false⟩) = true) : isUnsat n = true := by
  rw [isUnsat_iff] at h1 h2 ⊢
  intro a
  have hself : n a = n (Function.update a v (a v)) := by
    rw [Function.update_eq_self]
  cases hv : a v with
  | false => rw [hself, hv]; exact h2 a
  | true => rw [hself, hv]; exact h1 a

/-- A satisfiable node stays satisfiable under one of the two polarities:
this is the guarantee the `model` loop relies on when it falls back to the
negative literal. -/
lemma sat_neg_condition {V : Nat} (n : Node V) (v : Fin V)
    (hsat : isUnsat n = false)
    (hpos : isUnsat (condition n ⟨v, true⟩) = true) :
    isUnsat (condition n ⟨v, false⟩) = false := by
  cases hneg : isUnsat (condition n ⟨v, false⟩) with
  | false => rfl
  | true => rw [isUnsat_of_both_conditions n v hpos hneg] at hsat; cases hsat

/-- A node with no essential variable takes the same value everywhere. -/
lemma eq_of_no_essential {V : Nat} (n : Node V)
    (h : ∀ i, essential n i = false) (a b : Assig V) : n a = n b := by
  have hflip : ∀ (i : Fin V) (c : Assig V) (x y : Bool),
      n (Function.update c i x) = n (Function.update c i y) := by
    intro i c x y
    have hi := h i
    rw [essential, decide_eq_false_iff_not] at hi
    push_neg at hi
    cases x <;> cases y
    · rfl
    · exact (hi c).symm
    · exact hi c
    · rfl
  have key : ∀ s : Finset (Fin V), ∀ a b : Assig V,
      (∀ i, a i ≠ b i → i ∈ s) → n a = n b := by
    intro s
    induction s using Finset.induction_on with
    | empty =>
      intro a b hab
      have hab' : a = b := funext fun i => by
        by_contra hi
        exact absurd (hab i hi) (Finset.not_mem_empty i)
      rw [hab']
    | @insert j s hj ih =>
      intro a b hab
      have h1 : n a = n (Function.update a j (b j)) := by
        conv_lhs => rw [← Function.update_eq_self j a]
        exact hflip j a (a j) (b j)
      have h2 : n (Function.update a j (b j)) = n b := by
        refine ih (Function.update a j (b j)) b (fun i hi => ?_)
        by_cases hij : i = j
        · subst hij
          rw [Function.update_same] at hi
          exact absurd rfl hi
        · rw [Function.update_noteq hij] at hi
          rcases Finset.mem_insert.mp (hab i hi) with hc | hc
          · exact absurd hc hij
          · exact hc
      rw [h1, h2]
  exact key Finset.univ a b (fun i _ => Finset.mem_univ i)

/-- A node with no essential variable is constant: valid or unsat. -/
lemma const_of_no_essential {V : Nat} (n : Node V)
    (h : ∀ i, essential n i = false) :
    isValid n = true ∨ isUnsat n = true := by
  cases hd : n (fun _ => false) with
  | false =>
    refine Or.inr ?_
    rw [isUnsat_iff]
    intro a
    rw [eq_of_no_essential n h a (fun _ => false), hd]
  | true =>
    refine Or.inl ?_
    rw [isValid_iff]
    intro a
    rw [eq_of_no_essential n h a (fun _ => false), hd]

/-- Invariant of the `model` loop: starting from a satisfiable residual
whose essential variables all lie in the remaining support list, the loop
returns the accumulator extended by literals that condition the residual
to a valid node, and whose variables are an initial segment of the
remaining list. -/
lemma modelLoop_spec {V : Nat} (vars : List (Fin V)) :
    ∀ (n : Node V) (acc : List (Lit V)), isUnsat n = false →
    (∀ i, essential n i = true → i ∈ vars) →
    ∃ lits, modelLoop n vars acc = some (acc ++ lits) ∧
      isValid (conditionAll n lits) = true ∧
      (lits.map Lit.var) <+: vars := by
  induction vars with
  | nil =>
    intro n acc hsat hsub
    have hval : isValid n = true := by
      have hne : ∀ i, essential n i = false := fun i => by
        cases h : essential n i with
        | false => rfl
        | true => exact absurd (hsub i h) (List.not_mem_nil i)
      rcases const_of_no_essential n hne with h | h
      · exact h
      · rw [h] at hsat; cases hsat
    refine ⟨[], ?_, ?_, ?_⟩
    · simp [modelLoop, hsat, hval]
    · simpa [conditionAll] using hval
    · simp
  | cons v rest ih =>
    intro n acc hsat hsub
    by_cases hval : isValid n = true
    · refine ⟨[], ?_, ?_, ?_⟩
      · simp [modelLoop, hsat, hval]
      · simpa [conditionAll] using hval
      · simp
    · by_cases hpos : isUnsat (condition n ⟨v, true⟩) = true
      · -- fall back to the negative literal
        have hsat2 : isUnsat (condition n ⟨v, false⟩) = false :=
          sat_neg_condition n v hsat hpos
        have hsub2 : ∀ i, essential (condition n ⟨v, false⟩) i = true →
            i ∈ rest := by
          intro i hi
          by_cases hiv : i = (⟨v, false⟩ : Lit V).var
          · rw [hiv, essential_condition_self] at hi; cases hi
          · have := hsub i (essential_condition_mono n _ i hiv hi)
            rcases List.mem_cons.mp this with hc | hc
            · exact absurd hc hiv
            · exact hc
        rcases ih (condition n ⟨v, false⟩) (acc ++ [⟨v, false⟩]) hsat2 hsub2
          with ⟨lits, h1, h2, h3⟩
        refine ⟨⟨v, false⟩ :: lits, ?_, ?_, ?_⟩
        · rw [modelLoop]
          simp only [hsat, hval, hpos, if_true, if_false, Bool.false_eq_true,
            ite_false]
          rw [h1, List.append_assoc]
          rfl
        · exact h2
        · simpa using h3
      · -- positive literal kept
        have hsub2 : ∀ i, essential (condition n ⟨v, true⟩) i = true →
            i ∈ rest := by
          intro i hi
          by_cases hiv : i = (⟨v, true⟩ : Lit V).var
          · rw [hiv, essential_condition_self] at hi; cases hi
          · have := hsub i (essential_condition_mono n _ i hiv hi)
            rcases List.mem_cons.mp this with hc | hc
            · exact absurd hc hiv
            · exact hc
        have hpos' : isUnsat (condition n ⟨v, true⟩) = false := by
          cases h : isUnsat (condition n ⟨v, true⟩) with
          | false => rfl
          | true => exact absurd h hpos
        rcases ih (condition n ⟨v, true⟩) (acc ++ [⟨v, true⟩]) hpos' hsub2
          with ⟨lits, h1, h2, h3⟩
        refine ⟨⟨v, true⟩ :: lits, ?_, ?_, ?_⟩
        · rw [modelLoop]
          simp only [hsat, hval, hpos, if_true, if_false, Bool.false_eq_true,
            ite_false]
          rw [h1, List.append_assoc]
          rfl
        · exact h2
        · simpa using h3

/-- The support list returned by `node::variables()` has no duplicate and
lists exactly the essential variables. -/
lemma mem_varsList {V : Nat} (n : Node V) (i : Fin V) :
    i ∈ varsList n ↔ essential n i = true := by
  simp [varsList, List.mem_filter, List.mem_finRange]

lemma nodup_varsList {V : Nat} (n : Node V) : (varsList n).Nodup :=
  (List.nodup_finRange V).filter _

/-- `model` on a satisfiable node: the returned literal list conditions
the node to valid, and its variables form a prefix of the support list. -/
lemma model_spec_sat {V : Nat} (n : Node V) (hsat : isUnsat n = false) :
    ∃ lits, model n = some lits ∧
      isValid (conditionAll n lits) = true ∧
      (lits.map Lit.var) <+: varsList n := by
  rcases modelLoop_spec (varsList n) n [] hsat
    (fun i hi => (mem_varsList n i).mpr hi) with ⟨lits, h1, h2, h3⟩
  exact ⟨lits, by simpa [model] using h1, h2, h3⟩

/-- `model` on an unsat node returns nothing, at the first loop check. -/
lemma model_unsat {V : Nat} (n : Node V) (h : isUnsat n = true) :
    model n = none := by
  rw [model, modelLoop.eq_def]
  simp [h]

/-! ### Claim theorems -/

/-- Claim C1, counterexample: on `x1 ∨ x2` (2-variable manager) `model`
returns the single literal `+x1`, yet variable 2 is in the support; the
returned sequence does not contain one literal per support variable, so
the claim as stated fails here. -/
theorem c1_counterexample :
    model orTwo = some [⟨0, true⟩] ∧
    essential orTwo 1 = true ∧
    (1 : Fin 2) ∉ (([⟨0, true⟩] : List (Lit 2)).map Lit.var) := by
  decide

/-- Claim C1 (amended): `model(n)` returns nothing exactly when `n` is
unsat; otherwise it returns a literal sequence such that conditioning `n`
on the full sequence yields a valid node, with at most one literal per
variable and every literal's variable in `support(n)` (the loop may stop
before assigning every support variable, so the sequence can be shorter
than the support). -/
theorem c1_model_spec {V : Nat} (n : Node V) (lits : List (Lit V)) :
    (model n = none ↔ isUnsat n = true) ∧
    (model n = some lits →
      isValid (conditionAll n lits) = true ∧
      (lits.map Lit.var).Nodup ∧
      ∀ l ∈ lits, essential n l.var = true) := by
  constructor
  · constructor
    · intro h
      cases hs : isUnsat n with
      | false =>
        rcases model_spec_sat n hs with ⟨lits', h1, _, _⟩
        rw [h] at h1
        cases h1
      | true => rfl
    · exact model_unsat n
  · intro h
    cases hs : isUnsat n with
    | true => rw [model_unsat n hs] at h; cases h
    | false =>
      rcases model_spec_sat n hs with ⟨lits', h1, h2, h3⟩
      rw [h] at h1
      have hl : lits' = lits := (Option.some.inj h1).symm
      subst hl
      refine ⟨h2, ?_, ?_⟩
      · exact (nodup_varsList n).sublist h3.sublist
      · intro l hl
        have : l.var ∈ lits'.map Lit.var := List.mem_map_of_mem Lit.var hl
        exact (mem_varsList n l.var).mp (h3.sublist.subset this)

/-- Claim C1 witness: on `x1 ∧ x2` the model `[+x1, +x2]` conditions the
node to valid and mentions each variable once. -/
theorem c1_model_spec_witness :
    isValid (conditionAll andTwo [⟨0, true⟩, ⟨1, true⟩]) = true ∧
    (([(⟨0, true⟩ : Lit 2), ⟨1, true⟩]).map Lit.var).Nodup :=
  ⟨((c1_model_spec andTwo [⟨0, true⟩, ⟨1, true⟩]).2 (by decide)).1,
   ((c1_model_spec andTwo [⟨0, true⟩, ⟨1, true⟩]).2 (by decide)).2.1⟩

/-- Claim C2: conditioning on a literal list with the short-circuit of
sdd.cpp lines 218-226 (break as soon as the intermediate node is valid or
unsat) equals the full left-to-right fold of single-literal conditioning
with no short-circuit. -/
theorem c2_condition_short_circuit {V : Nat} (n : Node V)
    (ls : List (Lit V)) : conditionSeq n ls = conditionAll n ls := by
  induction ls generalizing n with
  | nil => rfl
  | cons l ls ih =>
    rw [conditionSeq]
    by_cases h : (isValid (condition n l) || isUnsat (condition n l)) = true
    · rw [if_pos h]
      have hconst : isValid (condition n l) = true ∨
          isUnsat (condition n l) = true := by simpa using h
      exact (conditionAll_of_const _ hconst ls).symm
    · rw [if_neg h]
      exact ih (condition n l)

/-- Claim C3: the engine-primitive code path of `forall(variable, node)`
agrees with the De Morgan definition `¬∃v.¬n`, and the multi-variable
path `forall(vector, node)` is literally `!exists(vars, !n)`. -/
theorem c3_forall_demorgan :
    (∀ (V : Nat) (v : Fin V) (n : Node V),
      forallVar v n = negateN (existsVar v (negateN n))) ∧
    (∀ (V : Nat) (vars : List (Fin V)) (n : Node V),
      forallVars vars n = negateN (existsVars vars (negateN n))) := by
  constructor
  · intro V v n
    funext a
    simp only [forallVar, negateN, existsVar]
    cases n (Function.update a v true) <;>
      cases n (Function.update a v false) <;> rfl
  · intro V vars n
    rfl

/-- Claim C4: `value(n, lit)` is false exactly when conditioning on `lit`
is unsat, true exactly when conditioning on `lit` is sat but on `!lit`
unsat, nothing exactly when both conditionings are sat; and for
`n = literal(1)` over a 2-variable manager, `value` of `+1`, `-1`, `+2`
is true, false, nothing respectively. -/
theorem c4_value_spec :
    (∀ (V : Nat) (n : Node V) (l : Lit V),
      (value n l = some false ↔ isUnsat (condition n l) = true) ∧
      (value n l = some true ↔
        isUnsat (condition n l) = false ∧
        isUnsat (condition n l.neg) = true) ∧
      (value n l = none ↔
        isUnsat (condition n l) = false ∧
        isUnsat (condition n l.neg) = false)) ∧
    value atomOne ⟨0, true⟩ = some true ∧
    value atomOne ⟨0, false⟩ = some false ∧
    value atomOne ⟨1, true⟩ = none := by
  refine ⟨?_, by decide, by decide, by decide⟩
  intro V n l
  cases h1 : isUnsat (condition n l) with
  | true => simp [value, h1]
  | false =>
    cases h2 : isUnsat (condition n l.neg) with
    | true => simp [value, h1, h2]
    | false => simp [value, h1, h2]

/-- Claim C5, counterexample: the range check compares the truncated
`unsigned` variable, so the literal `2^32` (mathematical variable
`2^32 > 3`) passes the check on a 3-variable manager instead of failing
with the out-of-range error: the check wraps for `|lit| >= 2^32`. -/
theorem c5_counterexample :
    ((2 ^ 32 : Int).natAbs > 3) ∧
    managerLiteral 3 (2 ^ 32) = Except.ok (litNode 3 (2 ^ 32)) := by
  constructor
  · decide
  · decide

/-- Claim C5 (amended): `manager.literal(lit)` fails with the distinct
out-of-range error if and only if the variable computed by
`literal::variable()` — `|lit| mod 2^32`, the C++ `unsigned` cast —
exceeds `var_count()`, raised synchronously at construction; otherwise it
returns the atomic node for `lit`.  For `|lit| < 2^32` the computed
variable is exactly `|lit|`, with no truncation. -/
theorem c5_literal_out_of_range (V : Nat) (l : Int) :
    (managerLiteral V l = Except.error LiteralError.outOfRange ↔
      V < litVarCode l) ∧
    (litVarCode l ≤ V → managerLiteral V l = Except.ok (litNode V l)) := by
  constructor
  · by_cases h : litVarCode l > V
    · simp [managerLiteral, h]
    · have h' : ¬ (V < litVarCode l) := h
      simp [managerLiteral, h, h']
  · intro hle
    have h : ¬ (litVarCode l > V) := by omega
    simp [managerLiteral, h]

/-- Claim C5 witness: `literal(4)` on a 3-variable manager fails with the
out-of-range signal, while `literal(2)` succeeds. -/
theorem c5_literal_out_of_range_witness :
    managerLiteral 3 4 = Except.error LiteralError.outOfRange ∧
    managerLiteral 3 2 = Except.ok (litNode 3 2) :=
  ⟨(c5_literal_out_of_range 3 4).1.mpr (by decide),
   (c5_literal_out_of_range 3 2).2 (by decide)⟩

/-- Claim C6: `rename` builds a dense permutation array of length
`var_count() + 1` and then calls the engine's rename primitive exactly
once; if `var_count()` observed after building the array differs from the
count read at entry, the defensive assert aborts fatally instead of
returning any (recoverable) result. -/
theorem c6_rename_assert (V : Nat) (f : Nat → Nat) (countAfter : Nat)
    (n : Node V) :
    (buildRenameMap V f).length = V + 1 ∧
    (countAfter = V →
      renameNode V f countAfter n =
        Except.ok (renamePrim (buildRenameMap V f) n)) ∧
    (countAfter ≠ V →
      renameNode V f countAfter n =
        Except.error RenameError.assertionFailure) := by
  refine ⟨by simp [buildRenameMap], ?_, ?_⟩
  · intro h
    simp [renameNode, h]
  · intro h
    simp [renameNode, h]

/-- Claim C6 witness: on a 1-variable manager with the identity renaming,
an unchanged count yields the renamed node and a changed count yields the
fatal assertion failure. -/
theorem c6_rename_assert_witness :
    renameNode 1 id 1 botOne =
      Except.ok (renamePrim (buildRenameMap 1 id) botOne) ∧
    renameNode 1 id 2 botOne =
      Except.error RenameError.assertionFailure :=
  ⟨(c6_rename_assert 1 id 1 botOne).2.1 rfl,
   (c6_rename_assert 1 id 2 botOne).2.2 (by decide)⟩

/-- Claim C7, counterexample: on `(x1 ∨ x2) ∧ x3` the residual support
sizes at the successive loop heads are 3, 1, 1, 0: the second iteration
conditions on variable 2, which the residual no longer depends on, so the
residual's support does not strictly shrink at that iteration. -/
theorem c7_counterexample :
    ((residualTrace orAndThree (varsList orAndThree)).map
      (fun m => (varsList m).length)) = [3, 1, 1, 0] ∧
    ¬ ((varsList (((residualTrace orAndThree
          (varsList orAndThree)).get? 2).getD orAndThree)).length <
       (varsList (((residualTrace orAndThree
          (varsList orAndThree)).get? 1).getD orAndThree)).length) := by
  decide

/-- Claim C7 (amended): the `model` loop terminates in at most
`|support(n)|` iterations — each completed iteration consumes one entry
of the support list computed at entry and appends one literal — although
the residual's support need not strictly shrink at every iteration. -/
theorem c7_model_iterations {V : Nat} (n : Node V) (lits : List (Lit V)) :
    model n = some lits → lits.length ≤ (varsList n).length := by
  intro h
  cases hs : isUnsat n with
  | true => rw [model_unsat n hs] at h; cases h
  | false =>
    rcases model_spec_sat n hs with ⟨lits', h1, _, h3⟩
    rw [h] at h1
    have hl : lits' = lits := (Option.some.inj h1).symm
    subst hl
    have := h3.length_le
    simpa using this

/-- Claim C7 witness: on `x1 ∧ x2` the loop runs 2 iterations for a
support of size 2. -/
theorem c7_model_iterations_witness :
    ([(⟨0, true⟩ : Lit 2), ⟨1, true⟩]).length ≤ (varsList andTwo).length :=
  c7_model_iterations andTwo [⟨0, true⟩, ⟨1, true⟩] (by decide)

/-- Claim C8: for every representable `long` literal, double negation is
the identity and negation preserves the variable computed by
`literal::variable()` (two's-complement negation, `unsigned` cast). -/
theorem c8_literal_negation (l : Int) (h1 : -(2 ^ 63) ≤ l)
    (h2 : l < 2 ^ 63) :
    negLong (negLong l) = l ∧ litVarCode (negLong l) = litVarCode l := by
  by_cases hmin : l = -(2 ^ 63)
  · subst hmin
    constructor
    · norm_num [negLong]
    · norm_num [negLong]
  · have hgt : -(2 ^ 63) < l := lt_of_le_of_ne h1 (Ne.symm hmin)
    have hneg : negLong l = -l := by
      unfold negLong
      rw [Int.emod_eq_of_lt (by omega) (by omega)]
      omega
    have hneg2 : negLong (-l) = l := by
      unfold negLong
      rw [Int.emod_eq_of_lt (by omega) (by omega)]
      omega
    refine ⟨by rw [hneg, hneg2], ?_⟩
    rw [hneg, litVarCode, litVarCode, Int.natAbs_neg]

/-- Claim C8 witness: at `l = -7`, double negation returns `-7` and the
variable is preserved. -/
theorem c8_literal_negation_witness :
    negLong (negLong (-7)) = -7 ∧
    litVarCode (negLong (-7)) = litVarCode (-7) :=
  c8_literal_negation (-7) (by norm_num) (by norm_num)

/-- Claim C10: on an unsat node, conditioning on any literal stays unsat,
and since `value` checks the positive branch first it answers
`some false` — not nothing — for every literal. -/
theorem c10_value_unsat {V : Nat} (n : Node V) (l : Lit V)
    (h : isUnsat n = true) : value n l = some false := by
  rw [value, condition_of_isUnsat n h l, if_pos h]

/-- Claim C10 witness: on the constant-false node of a 1-variable
manager, `value` of `+x1` is `some false`. -/
theorem c10_value_unsat_witness : value botOne ⟨0, true⟩ = some false :=
  c10_value_unsat botOne ⟨0, true⟩ (by decide)

end SddSpec
